import Mathlib

/-!
Verification of the configuration-resolution and plugin-loading pipeline of
the `mdast` command-line front end (`src/cli.js`).

The development shallow-embeds the source file's pure logic:

* the delimiter splitting performed by `String.prototype.split` on the
  regexes `/ *[,;] */` (entry splitter) and `/ *: */` (name/value delimiter);
* JavaScript's generic string-to-number coercion `Number(value)` (with `NaN`
  modelled as `Option.none`);
* `parseSetting`, `parsePlugin`, `findRoot` and `find` from the source;
* the orchestration of `run` and the top-level invocation dispatch, with the
  external collaborators (filesystem, `require`, configuration object,
  parse/stringify engine, I/O) passed in as explicit functions.

Machine floats are abstracted by exact rationals: no claim under study
depends on IEEE rounding, only on which strings coerce to a number at all
and on small integer values.
-/

/- ### Characters and basic string utilities -/

/-- The whitespace characters trimmed by JavaScript's `Number` coercion. -/
def wsChar (c : Char) : Bool :=
  c = ' ' || c = '\t' || c = '\n' || c = '\r' || c = '\x0b' || c = '\x0c'

/-- Characters matched by the `[,;]` class of the entry splitter `/ *[,;] */`. -/
def splitterChar (c : Char) : Bool :=
  c = ',' || c = ';'

/-- The colon matched by the name/value delimiter `/ *: */`. -/
def colonChar (c : Char) : Bool :=
  c = ':'

/-- Lower-case an ASCII letter, leave everything else unchanged. -/
def asciiLower (c : Char) : Char :=
  if 'A' ≤ c ∧ c ≤ 'Z' then Char.ofNat (c.toNat + 32) else c

/-- Upper-case an ASCII letter, leave everything else unchanged. -/
def asciiUpper (c : Char) : Char :=
  if 'a' ≤ c ∧ c ≤ 'z' then Char.ofNat (c.toNat - 32) else c

/-- `Array.prototype.join(sep)`: the empty list joins to the empty string. -/
def joinWith (sep : String) : List String → String
  | [] => ""
  | [a] => a
  | a :: b :: rest => a ++ sep ++ joinWith sep (b :: rest)

/-- Plain single-character string split, as in `cwd.split(path.sep)`.
`cur` holds the characters of the current token in reverse. -/
def splitPlainGo (sep : Char) : List Char → List Char → List String
  | [], cur => [String.mk cur.reverse]
  | c :: rest, cur =>
    if c = sep then String.mk cur.reverse :: splitPlainGo sep rest []
    else splitPlainGo sep rest (c :: cur)

/-- `s.split(sep)` for a single separator character. -/
def strSplitPlain (sep : Char) (s : String) : List String :=
  splitPlainGo sep s.data []

/-- Split on `/ *[,;] */`-style regexes: a delimiter character together with
the space run immediately before it and immediately after it separates two
tokens.  `cur` holds the current token reversed; `afterDelim` records that we
are still inside the space run following a delimiter (those spaces belong to
the delimiter match, not to the next token). -/
def splitTrimGo (isDelim : Char → Bool) : List Char → List Char → Bool → List String
  | [], cur, _ => [String.mk cur.reverse]
  | c :: rest, cur, afterDelim =>
    if isDelim c then
      String.mk ((cur.dropWhile (fun d => d = ' ')).reverse) ::
        splitTrimGo isDelim rest [] true
    else if afterDelim && c = ' ' then splitTrimGo isDelim rest cur true
    else splitTrimGo isDelim rest (c :: cur) false

/-- `s.split(re)` for the two delimiter regexes of the source
(`SPLITTER = / *[,;] */` and `DELIMITER = / *: */`). -/
def strSplitTrim (isDelim : Char → Bool) (s : String) : List String :=
  splitTrimGo isDelim s.data [] false

/- ### JavaScript values and numeric coercion -/

/-- A JavaScript number that is not `NaN`: an exact finite value or a signed
infinity (`Number("Infinity")` is a number and is equal to itself). -/
inductive JSNum where
  | fin (q : ℚ)
  | posInf
  | negInf
deriving DecidableEq, Repr

/-- Negation, for the sign prefix of a numeric string. -/
def JSNum.neg : JSNum → JSNum
  | .fin q => .fin (-q)
  | .posInf => .negInf
  | .negInf => .posInf

/-- A coerced setting value: boolean, number, or string. -/
inductive JSValue where
  | bool (b : Bool)
  | num (n : JSNum)
  | str (s : String)
deriving DecidableEq, Repr

/-- Decimal digit test. -/
def decDigit (c : Char) : Bool :=
  '0' ≤ c ∧ c ≤ '9'

/-- Hexadecimal digit test. -/
def hexDigit (c : Char) : Bool :=
  decDigit c || ('a' ≤ c ∧ c ≤ 'f') || ('A' ≤ c ∧ c ≤ 'F')

/-- Numeric value of a decimal digit. -/
def digitVal (c : Char) : ℕ :=
  c.toNat - '0'.toNat

/-- Numeric value of a hexadecimal digit. -/
def hexVal (c : Char) : ℕ :=
  if decDigit c then digitVal c
  else if 'a' ≤ c ∧ c ≤ 'f' then c.toNat - 'a'.toNat + 10
  else c.toNat - 'A'.toNat + 10

/-- Value of a decimal digit string. -/
def natOfDigits (l : List Char) : ℕ :=
  l.foldl (fun n c => n * 10 + digitVal c) 0

/-- Value of a hexadecimal digit string. -/
def natOfHexDigits (l : List Char) : ℕ :=
  l.foldl (fun n c => n * 16 + hexVal c) 0

/-- Body of an exponent suffix: optional sign, one or more digits, nothing
after them. -/
def parseExponentBody : List Char → Option ℤ
  | '+' :: ds => if ds ≠ [] ∧ ds.all decDigit then some (natOfDigits ds) else none
  | '-' :: ds => if ds ≠ [] ∧ ds.all decDigit then some (-(natOfDigits ds : ℤ)) else none
  | ds => if ds ≠ [] ∧ ds.all decDigit then some (natOfDigits ds) else none

/-- Parse the exponent suffix `e`/`E`, optional sign, one or more digits;
the whole remainder must be consumed. -/
def parseExponent : List Char → Option ℤ
  | 'e' :: rest => parseExponentBody rest
  | 'E' :: rest => parseExponentBody rest
  | _ => none

/-- Scale a rational by a power of ten. -/
def applyExponent (q : ℚ) (e : ℤ) : ℚ :=
  if 0 ≤ e then q * (10 : ℚ) ^ e.toNat else q / (10 : ℚ) ^ (-e).toNat

/-- Parse an unsigned decimal literal `digits [. digits] [exp]` or
`. digits [exp]`; the whole input must be consumed, else `none` (`NaN`). -/
def parseDecimal (l : List Char) : Option ℚ :=
  let intPart := l.takeWhile decDigit
  let rest := l.dropWhile decDigit
  match rest with
  | [] => if intPart = [] then none else some (natOfDigits intPart)
  | '.' :: rest2 =>
    let frac := rest2.takeWhile decDigit
    let rest3 := rest2.dropWhile decDigit
    if intPart = [] ∧ frac = [] then none
    else
      let mant : ℚ := (natOfDigits intPart : ℚ) +
        (natOfDigits frac : ℚ) / (10 : ℚ) ^ frac.length
      match rest3 with
      | [] => some mant
      | _ => (parseExponent rest3).map (applyExponent mant)
  | _ =>
    if intPart = [] then none
    else (parseExponent rest).map (applyExponent (natOfDigits intPart))

/-- Unsigned part of a numeric string after an optional sign: the literal
`Infinity` or a decimal literal.  Hexadecimal is handled before the sign is
stripped, because `Number("-0x10")` is `NaN`. -/
def parseUnsigned (l : List Char) : Option JSNum :=
  if l = ['I', 'n', 'f', 'i', 'n', 'i', 't', 'y'] then some .posInf
  else (parseDecimal l).map .fin

/-- JavaScript `Number(s)` on a string, with `NaN` as `none`: trim
whitespace, empty means `0`, then an unsigned hexadecimal literal or an
optionally signed decimal/`Infinity` literal consuming the whole string. -/
def jsToNumber (s : String) : Option JSNum :=
  let l := (s.data.dropWhile wsChar).reverse.dropWhile wsChar |>.reverse
  match l with
  | [] => some (.fin 0)
  | '0' :: 'x' :: rest =>
    if rest ≠ [] ∧ rest.all hexDigit then some (.fin (natOfHexDigits rest)) else none
  | '0' :: 'X' :: rest =>
    if rest ≠ [] ∧ rest.all hexDigit then some (.fin (natOfHexDigits rest)) else none
  | '+' :: rest => parseUnsigned rest
  | '-' :: rest => (parseUnsigned rest).map JSNum.neg
  | _ => parseUnsigned l

/- ### Key normalization -/

/-- Lower-case the first character of a word. -/
def lowerFirst (s : String) : String :=
  match s.data with
  | [] => ""
  | c :: rest => String.mk (asciiLower c :: rest)

/-- Upper-case the first character of a word. -/
def upperFirst (s : String) : String :=
  match s.data with
  | [] => ""
  | c :: rest => String.mk (asciiUpper c :: rest)

/-- Modelled from the spec: the external `camelcase` dependency used for key
normalization, which the spec describes as "convert dash-case or space-case
to camelCase before storing" (its implementation is not part of this
repository).  Words separated by dashes or spaces are joined, the first
word's initial is lowered, the later words' initials are raised. -/
def camelcase (s : String) : String :=
  match (s.data.splitOnP (fun c => c = '-' || c = ' ')).filter (fun w => w ≠ []) with
  | [] => ""
  | w :: ws =>
    lowerFirst (String.mk w) ++ String.join (ws.map (fun u => upperFirst (String.mk u)))

/- ### Settings map (a JavaScript object used as a dictionary) -/

/-- Insertion-ordered key/value store: assigning an existing key overwrites
it in place, a new key is appended. -/
abbrev SettingsMap : Type := List (String × JSValue)

/-- The empty object `{}`. -/
def emptyMap : SettingsMap := []

/-- Property assignment `m[k] = v`. -/
def setKey : SettingsMap → String → JSValue → SettingsMap
  | [], k, v => [(k, v)]
  | (k0, v0) :: rest, k, v =>
    if k0 = k then (k, v) :: rest else (k0, v0) :: setKey rest k v

/-- Property lookup `m[k]`. -/
def lookupKey (m : SettingsMap) (k : String) : Option JSValue :=
  match m with
  | [] => none
  | (k0, v0) :: rest => if k0 = k then some v0 else lookupKey rest k

/- ### `parseSetting` (source lines 122-142) -/

/-- The coercion applied by `parseSetting` to a raw value string, mirroring
the source's `if`/`else if` chain; `Number(value) === Number(value)` is the
`NaN` test, i.e. `(jsToNumber value).isSome`. -/
def coerceValue (value : String) : JSValue :=
  if value = "true" ∨ value = "" then .bool true
  else if value = "false" then .bool false
  else
    match jsToNumber value with
    | some n => .num n
    | none => .str value

/-- The key stored for one entry: `camelcase(flag[0])`. -/
def entryKey (entry : String) : String :=
  camelcase ((strSplitTrim colonChar entry).headD "")

/-- The value stored for one entry: the coercion of
`flag.slice(1).join(':')`. -/
def entryVal (entry : String) : JSValue :=
  coerceValue (joinWith (":") ((strSplitTrim colonChar entry).drop 1))

/-- Processing of a single `,`/`;`-separated entry inside `parseSetting`'s
`forEach`: split on `/ *: */`, rejoin the tail with `':'`, coerce, store. -/
def applyEntry (cache : SettingsMap) (entry : String) : SettingsMap :=
  setKey cache (entryKey entry) (entryVal entry)

/-- `parseSetting(flags, cache)`: split `flags` on `/ *[,;] */` and fold the
entries into the cache, left to right. -/
def parseSetting (flags : String) (cache : SettingsMap) : SettingsMap :=
  (strSplitTrim splitterChar flags).foldl applyEntry cache

/- ### `parsePlugin` (source lines 151-153) -/

/-- `parsePlugin(ware, cache)`: `cache.concat(ware.split(SPLITTER))`. -/
def parsePlugin (ware : String) (cache : List String) : List String :=
  cache ++ strSplitTrim splitterChar ware

/- ### Spec-side restatement of the coercion rules (for the refinement claim) -/

/-- First-applicable-rule evaluator: each rule is a guard paired with the
value it produces, tried in order, with a default when no guard holds. -/
def firstRule : List (Bool × JSValue) → JSValue → JSValue
  | [], dflt => dflt
  | (c, r) :: rest, dflt => if c then r else firstRule rest dflt

/-- The coercion exactly as the spec words it: an ordered, case-sensitive,
exact-match rule list — empty or `"true"` gives boolean true; `"false"`
gives boolean false; a string fully parseable as a number (rejecting `NaN`)
gives that number; otherwise the string is kept. -/
def coerceValueSpec (v : String) : JSValue :=
  firstRule
    [(v = "" || v = "true", .bool true),
     (v = "false", .bool false),
     ((jsToNumber v).isSome, .num ((jsToNumber v).getD (.fin 0)))]
    (.str v)

/- ### A reference store, for the mutation/fresh-copy claims -/

/-- A tiny heap of JavaScript objects: references are indices into a list.
`parseSetting` writes through its accumulator reference and returns the same
reference, while `parsePlugin`'s `Array.prototype.concat` allocates a fresh
array and leaves the accumulator's cell untouched. -/
structure Store (α : Type) where
  objs : List α
deriving DecidableEq, Repr

/-- Dereference. -/
def Store.read (s : Store α) (r : ℕ) : Option α :=
  s.objs.get? r

/-- In-place update of the object a reference points at. -/
def Store.write (s : Store α) (r : ℕ) (a : α) : Store α :=
  ⟨s.objs.set r a⟩

/-- Allocation of a fresh object; the new reference is distinct from every
existing one. -/
def Store.alloc (s : Store α) (a : α) : ℕ × Store α :=
  (s.objs.length, ⟨s.objs ++ [a]⟩)

/-- `parseSetting` at the heap level: `cache[camelcase(flag[0])] = value`
mutates the passed object and the function returns that same object. -/
def parseSettingRef (s : Store SettingsMap) (flags : String) (r : ℕ) :
    ℕ × Store SettingsMap :=
  (r, s.write r (parseSetting flags ((s.read r).getD emptyMap)))

/-- `parsePlugin` at the heap level: `cache.concat(...)` builds a fresh
array from the accumulator's elements and the new tokens. -/
def parsePluginRef (s : Store (List String)) (ware : String) (r : ℕ) :
    ℕ × Store (List String) :=
  s.alloc (parsePlugin ware ((s.read r).getD []))

/- ### Paths and the filesystem interface -/

/-- Head-character test for an absolute POSIX path. -/
def isAbsolute (p : String) : Bool :=
  p.data.head? = some '/'

/-- `path.join(a, b)` for the shapes arising here: an empty left part yields
the right part unchanged (so `path.join('', 'package.json')` is the relative
path `package.json`). -/
def joinPath (a b : String) : String :=
  if a = "" then b
  else if a.data.getLast? = some '/' then a ++ b
  else a ++ "/" ++ b

/-- `path.resolve(base, p)` as used by the source: an absolute `p` stands
alone; otherwise it is joined to `base`, and an empty `base` falls back to
the process working directory, against which Node resolves relative
paths. -/
def resolveFrom (cwd base p : String) : String :=
  if isAbsolute p then p
  else if base = "" then joinPath cwd p
  else joinPath base p

/- ### `findRoot` (source lines 64-74) -/

/-- The path whose existence the loop tests: `join(location, 'package.json')`,
with a relative result (the `location = ""` stage) resolved against the
working directory by `fs.existsSync`. -/
def markerPath (cwd location : String) : String :=
  let p := joinPath location ("package.json")
  if isAbsolute p then p else joinPath cwd p

/-- The `while` loop of `findRoot`, with the remaining `parts` carried in
reverse so that `parts.pop()` is structural.  The `[]` case is the dead
`parts.length ? location : cwd` fallback; in the one-element case the loop
condition `parts.length > 1` is false and `location` is returned whatever
the marker test says. -/
def findRootGo (fsEx : String → Bool) (cwd : String) : List String → String → String
  | [], _ => cwd
  | [_], location => location
  | _ :: r :: rest, location =>
    if fsEx (markerPath cwd location) then location
    else findRootGo fsEx cwd (r :: rest) (joinWith ("/") (r :: rest).reverse)

/-- `findRoot()`: split the working directory on the separator and walk
upward by popping path components. -/
def findRoot (fsEx : String → Bool) (cwd : String) : String :=
  findRootGo fsEx cwd (strSplitPlain '/' cwd).reverse cwd

/-- The successive values of `location`, in visit order, mirroring
`findRootGo`.  All but the last are tested for the marker; the last is the
loop's final fallback, returned untested. -/
def chainGo : List String → String → List String
  | [], _ => []
  | [_], location => [location]
  | _ :: r :: rest, location =>
    location :: chainGo (r :: rest) (joinWith ("/") (r :: rest).reverse)

/-- The location chain of a `findRoot` run started at `cwd`. -/
def rootChain (cwd : String) : List String :=
  chainGo (strSplitPlain '/' cwd).reverse cwd

/- ### `find` (source lines 88-113): plugin candidate selection -/

/-- The candidate path `find` selects for a plugin identifier: the
project-root local path (also tried with a `.js` suffix), then the
project-root `node_modules`, then the working-directory `node_modules`, then
the identifier itself as a bare module name for `require`. -/
def findPlugin (fsEx : String → Bool) (root cwd pathlike : String) : String :=
  let lcl := resolveFrom cwd root pathlike
  let npm := resolveFrom cwd (resolveFrom cwd root ("node_modules")) pathlike
  let cur := resolveFrom cwd (resolveFrom cwd cwd ("node_modules")) pathlike
  if fsEx lcl || fsEx (lcl ++ ".js") then lcl
  else if fsEx npm then npm
  else if fsEx cur then cur
  else pathlike

/-- The search order exactly as the spec words it: an ordered candidate
list, each with its own existence test, first match wins, and the bare
identifier is the fallback when no candidate matches. -/
def findPluginSpec (fsEx : String → Bool) (root cwd pathlike : String) : String :=
  let lcl := resolveFrom cwd root pathlike
  let npm := resolveFrom cwd (resolveFrom cwd root ("node_modules")) pathlike
  let cur := resolveFrom cwd (resolveFrom cwd cwd ("node_modules")) pathlike
  let cands := [(lcl, fsEx lcl || fsEx (lcl ++ ".js")), (npm, fsEx npm), (cur, fsEx cur)]
  match cands.find? (fun c => c.2) with
  | some c => c.1
  | none => pathlike

/- ### The run orchestration (source lines 250-341) -/

/-- The result of `configuration.getConfiguration(filename)`: the effective
settings and the plugin identifier list. -/
structure EffectiveConfig where
  settings : SettingsMap
  plugins : List String
deriving Repr

/-- The observable end of one process invocation: the exit code, everything
written to standard out, an output file write if one completed, and
everything written to standard error. -/
structure Outcome where
  exitCode : ℕ
  stdoutWrites : List String
  fileWrite : Option (String × String)
  stderrWrites : List String
deriving DecidableEq, Repr

/-- `fail(message)`: the diagnostic goes to standard error and the process
exits with code `1`; nothing has been written to standard out and no output
file write has completed on any path reaching `fail`. -/
def failOutcome (message : String) : Outcome :=
  ⟨1, [], none, [message]⟩

/-- An exception thrown outside every `try`/`catch` (the unwrapped
`getConfiguration` and `stringify` calls): the host runtime prints the trace
on standard error and exits with its own non-zero code, which the model
carries as a parameter. -/
def uncaughtOutcome (code : ℕ) (message : String) : Outcome :=
  ⟨code, [], none, [message]⟩

/-- The process environment and the external collaborators of the pipeline,
each passed as an explicit function: the filesystem existence test consumed
by `findRoot`/`find`, `require`, the `Configuration` constructor and its
`getConfiguration`, the engine's `parse`/`stringify`, `JSON.stringify`, file
read/write, the successive `data` chunks the piped standard input delivers,
the argument-framework products (options and positional arguments), the
usage text `outputHelp` prints, and the exit code the host uses for an
uncaught exception. -/
structure Env (Δ : Type) where
  pipedIn : Bool
  args : List String
  output : Option String
  settingsFlag : Bool
  astFlag : Bool
  cwd : String
  fsEx : String → Bool
  newConfig : Except String Unit
  getConfig : Option String → Except String EffectiveConfig
  requireM : String → Except String Unit
  parseDoc : String → SettingsMap → Except String Δ
  stringifyDoc : Δ → SettingsMap → Except String String
  jsonStringify : Δ → String
  readF : String → Except String String
  writeF : String → String → Option String
  stdinChunks : List String
  helpText : String
  uncaughtCode : ℕ

/-- The candidate `find` selects for one identifier in this environment
(the project root is computed once per process by `findRoot`). -/
def selectedPath (e : Env Δ) (pathlike : String) : String :=
  findPlugin e.fsEx (findRoot e.fsEx e.cwd) e.cwd pathlike

/-- `options.plugins.map(find)`: each identifier's selected candidate is
passed to `require` exactly once; the first load failure aborts through
`fail`, later identifiers are not reached. -/
def loadPlugins (e : Env Δ) : List String → Except String (List Unit)
  | [] => .ok []
  | p :: rest =>
    match e.requireM (selectedPath e p) with
    | .error ex => .error ex
    | .ok u =>
      match loadPlugins e rest with
      | .error ex => .error ex
      | .ok us => .ok (u :: us)

/-- `run(value, filename)`: construct the configuration (caught, fatal),
obtain the effective configuration (uncaught on throw), load the plugins
(fatal on the first failure), parse (caught, fatal), then either pretty
print the tree or stringify it (uncaught on throw), and finally write to the
output path (fatal on write error) or to standard out. -/
def runModel (e : Env Δ) (value : String) (filename : Option String) : Outcome :=
  match e.newConfig with
  | .error ex => failOutcome ex
  | .ok _ =>
    match e.getConfig filename with
    | .error ex => uncaughtOutcome e.uncaughtCode ex
    | .ok options =>
      match loadPlugins e options.plugins with
      | .error ex => failOutcome ex
      | .ok _ =>
        match e.parseDoc value options.settings with
        | .error ex => failOutcome ex
        | .ok doc =>
          match
            (if e.astFlag then .ok (e.jsonStringify doc)
             else e.stringifyDoc doc options.settings) with
          | .error ex => uncaughtOutcome e.uncaughtCode ex
          | .ok out =>
            match e.output with
            | some path =>
              match e.writeF path out with
              | some ex => failOutcome ex
              | none => ⟨0, [], some (path, out), []⟩
            | none => ⟨0, [out], none, []⟩

/-- `stdin.on('data', run)`: `run` executes once per delivered chunk.  A
chunk whose `run` fails terminates the process right there — its outcome is
final, but everything earlier successful chunks wrote to standard out is
already out, and an output file written by an earlier chunk stays written
(later successful chunks overwrite it).  When every chunk succeeds the
process ends with code `0` and the concatenated writes. -/
def runChunks (e : Env Δ) : List String → Outcome
  | [] => ⟨0, [], none, []⟩
  | chunk :: rest =>
    let o := runModel e chunk none
    if o.exitCode = 0 then
      let orest := runChunks e rest
      ⟨orest.exitCode, o.stdoutWrites ++ orest.stdoutWrites,
       (match orest.fileWrite with
        | some w => some w
        | none => o.fileWrite),
       o.stderrWrites ++ orest.stderrWrites⟩
    else o

/-- The text the `--settings` listing prints on standard out (its exact
wording is immaterial to every property studied here). -/
def settingsHelp : String :=
  "  # Settings: both camel- and dash-cased settings are allowed."

/-- The invocation message of the one-file check. -/
def oneFileMessage : String :=
  "mdast currently expects one file."

/-- The top-level dispatch after argument parsing: the `--settings` listing;
otherwise the input-source rules — with a TTY and no positional argument the
output path is reused as input when given and the usage text is printed on
standard out with exit `1` when not; piped input with a positional argument,
or more than one file, is the fatal one-file invocation error; otherwise the
single file (resolved against the working directory) is read and `run`, or —
for piped input — `run` is dispatched once per standard-input chunk. -/
def topModel (e : Env Δ) : Outcome :=
  if e.settingsFlag then ⟨0, [settingsHelp], none, []⟩
  else if !e.pipedIn && e.args.isEmpty then
    match e.output with
    | some o =>
      match e.readF (resolveFrom e.cwd e.cwd o) with
      | .error ex => failOutcome ex
      | .ok value => runModel e value (some (resolveFrom e.cwd e.cwd o))
    | none => ⟨1, [e.helpText], none, []⟩
  else if (e.pipedIn && !e.args.isEmpty) || (!e.pipedIn && e.args.length ≠ 1) then
    failOutcome oneFileMessage
  else if e.pipedIn then runChunks e e.stdinChunks
  else
    match e.readF (resolveFrom e.cwd e.cwd (e.args.headD "")) with
    | .error ex => failOutcome ex
    | .ok value => runModel e value (some (resolveFrom e.cwd e.cwd (e.args.headD "")))

/- ### Remaining definitions used by the statements -/

/-- Last element of a list, with a default for the empty list. -/
def lastOr : List String → String → String
  | [], d => d
  | [a], _ => a
  | _ :: b :: t, d => lastOr (b :: t) d

/-- The `,`/`;`-separated entries of one raw `--setting` string. -/
def entriesOf (raw : String) : List String :=
  strSplitTrim splitterChar raw

/-- An invocation with piped input, a positional file argument, and the
`--settings` listing requested. -/
def envPipedFileSettings : Env Unit :=
  Env.mk true ["doc.md"] none true false ("/work") (fun _ => false) (.ok ())
    (fun _ => .ok (EffectiveConfig.mk emptyMap [])) (fun _ => .ok ())
    (fun _ _ => .ok ()) (fun _ _ => .ok "out") (fun _ => "ast") (fun _ => .ok "input")
    (fun _ _ => none) [] ("Usage: mdast [options] file") 8

/-- An invocation with piped input and a positional file argument, in
normal transform mode. -/
def envPipedFile : Env Unit :=
  Env.mk true ["doc.md"] none false false ("/work") (fun _ => false) (.ok ())
    (fun _ => .ok (EffectiveConfig.mk emptyMap [])) (fun _ => .ok ())
    (fun _ _ => .ok ()) (fun _ _ => .ok "out") (fun _ => "ast") (fun _ => .ok "input")
    (fun _ _ => none) [] ("Usage: mdast [options] file") 8

/-- A TTY invocation with no positional argument and no output option: the
no-input invalid invocation. -/
def envNoInput : Env Unit :=
  Env.mk false [] none false false ("/work") (fun _ => false) (.ok ())
    (fun _ => .ok (EffectiveConfig.mk emptyMap [])) (fun _ => .ok ())
    (fun _ _ => .ok ()) (fun _ _ => .ok "out") (fun _ => "ast") (fun _ => .ok "input")
    (fun _ _ => none) [] ("Usage: mdast [options] file") 8

/-- A piped invocation whose `Configuration` constructor throws. -/
def envConfigError : Env Unit :=
  Env.mk true [] none false false ("/work") (fun _ => false)
    (.error ("Invalid configuration"))
    (fun _ => .ok (EffectiveConfig.mk emptyMap [])) (fun _ => .ok ())
    (fun _ _ => .ok ()) (fun _ _ => .ok "out") (fun _ => "ast") (fun _ => .ok "input")
    (fun _ _ => none) ["input"] ("Usage: mdast [options] file") 8

/-- A piped invocation whose standard input arrives in two chunks: the first
chunk parses and its transform output goes to standard out, the second chunk
is rejected by the parser, so `run` routes its diagnostic through `fail` and
exits `1` with the first chunk's output already written. -/
def envChunked : Env Unit :=
  Env.mk true [] none false true ("/work") (fun _ => false) (.ok ())
    (fun _ => .ok (EffectiveConfig.mk emptyMap [])) (fun _ => .ok ())
    (fun v _ => if v = "bad" then .error ("Parse error") else .ok ())
    (fun _ _ => .ok "out") (fun _ => "OUT") (fun _ => .ok "input")
    (fun _ _ => none) ["good", "bad"] ("Usage: mdast [options] file") 8

/-- A piped invocation asking for one plugin that matches no candidate
location and is not a resolvable bare module name. -/
def envMissingPlugin : Env Unit :=
  Env.mk true [] none false false ("/work") (fun _ => false) (.ok ())
    (fun _ => .ok (EffectiveConfig.mk emptyMap ["missing-plugin"]))
    (fun _ => .error ("Cannot find module: missing-plugin"))
    (fun _ _ => .ok ()) (fun _ _ => .ok "out") (fun _ => "ast") (fun _ => .ok "input")
    (fun _ _ => none) [] ("Usage: mdast [options] file") 8

/- ### Helper lemmas on strings and the splitters -/

theorem strMkAppend (a b : List Char) : String.mk a ++ String.mk b = String.mk (a ++ b) :=
  rfl

theorem strDataAppend (a b : String) : (a ++ b).data = a.data ++ b.data :=
  rfl

theorem strMkData (s : String) : String.mk s.data = s :=
  rfl

theorem dropWhileNoSpace (l : List Char) (h : ∀ c ∈ l, c ≠ ' ') :
    l.dropWhile (fun d => d = ' ') = l := by
  cases l with
  | nil => rfl
  | cons c rest =>
    have : c ≠ ' ' := h c (List.mem_cons_self c rest)
    simp [List.dropWhile, this]

theorem splitTrimGoNeNil (isD : Char → Bool) :
    ∀ (l cur : List Char) (b : Bool), splitTrimGo isD l cur b ≠ [] := by
  intro l
  induction l with
  | nil => intro cur b; simp [splitTrimGo]
  | cons c rest ih =>
    intro cur b
    simp only [splitTrimGo]
    split
    · simp
    · split
      · exact ih cur true
      · exact ih (c :: cur) false

theorem splitTrimGoNoDelim (isD : Char → Bool) :
    ∀ (l cur : List Char), (∀ c ∈ l, isD c = false) →
      splitTrimGo isD l cur false = [String.mk (cur.reverse ++ l)] := by
  intro l
  induction l with
  | nil => intro cur _; simp [splitTrimGo]
  | cons c rest ih =>
    intro cur h
    have hc : isD c = false := h c (List.mem_cons_self c rest)
    have hrest : ∀ d ∈ rest, isD d = false := fun d hd => h d (List.mem_cons_of_mem c hd)
    simp [splitTrimGo, hc, ih (c :: cur) hrest]

theorem splitTrimGoSkip (isD : Char → Bool) :
    ∀ (l1 l2 cur : List Char), (∀ c ∈ l1, isD c = false) →
      splitTrimGo isD (l1 ++ l2) cur false = splitTrimGo isD l2 (l1.reverse ++ cur) false := by
  intro l1
  induction l1 with
  | nil => intro l2 cur _; simp
  | cons c rest ih =>
    intro l2 cur h
    have hc : isD c = false := h c (List.mem_cons_self c rest)
    have hrest : ∀ d ∈ rest, isD d = false := fun d hd => h d (List.mem_cons_of_mem c hd)
    simp [splitTrimGo, hc, ih l2 (c :: cur) hrest]

theorem joinWithConsOfNeNil (sep : String) (a : String) (l : List String) (h : l ≠ []) :
    joinWith sep (a :: l) = a ++ sep ++ joinWith sep l := by
  cases l with
  | nil => exact absurd rfl h
  | cons b t => rfl

theorem joinSplitColon :
    ∀ (l cur : List Char) (b : Bool),
      (∀ c ∈ l, c ≠ ' ') → (∀ c ∈ cur, c ≠ ' ') →
      joinWith (":") (splitTrimGo colonChar l cur b) = String.mk (cur.reverse ++ l) := by
  intro l
  induction l with
  | nil =>
    intro cur b _ _
    simp [splitTrimGo, joinWith]
  | cons c rest ih =>
    intro cur b h hcur
    have hrest : ∀ d ∈ rest, d ≠ ' ' := fun d hd => h d (List.mem_cons_of_mem c hd)
    by_cases hc : c = ':'
    · subst hc
      have hcol : colonChar ':' = true := by decide
      rw [show splitTrimGo colonChar (':' :: rest) cur b =
            String.mk ((cur.dropWhile (fun d => d = ' ')).reverse) ::
              splitTrimGo colonChar rest [] true by simp [splitTrimGo, hcol]]
      rw [joinWithConsOfNeNil (":") _ _ (splitTrimGoNeNil colonChar rest [] true)]
      rw [ih [] true hrest (by simp)]
      rw [dropWhileNoSpace cur hcur]
      rw [show (":" : String) = String.mk [':'] from rfl]
      rw [strMkAppend, strMkAppend]
      simp
    · have hcol : colonChar c = false := by
        simp [colonChar]
        intro hcc
        exact absurd hcc hc
      have hsp : c ≠ ' ' := h c (List.mem_cons_self c rest)
      have hcur2 : ∀ d ∈ (c :: cur), d ≠ ' ' := by
        intro d hd
        rcases List.mem_cons.mp hd with h1 | h2
        · rw [h1]; exact hsp
        · exact hcur d h2
      rw [show splitTrimGo colonChar (c :: rest) cur b =
            splitTrimGo colonChar rest (c :: cur) false by
          simp [splitTrimGo, hcol, hsp]]
      rw [ih (c :: cur) false hrest hcur2]
      simp

/- ### Claim C1 -/

/-- C1: the value of each setting entry is coerced by ordered, case-sensitive,
exact-match rules — empty string or `"true"` gives boolean true, `"false"`
gives boolean false, a string fully parseable as a number (rejecting `NaN`)
gives that number, and anything else is kept as the original string; in
particular `"Footnotes:TRUE"` stores the string `"TRUE"` and
`"ruleRepetition:3"` stores the number `3`. -/
theorem setting_value_coercion_rules :
    (∀ v : String, coerceValue v = coerceValueSpec v) ∧
    lookupKey (parseSetting ("Footnotes:TRUE") emptyMap) ("footnotes")
      = some (.str "TRUE") ∧
    lookupKey (parseSetting ("ruleRepetition:3") emptyMap) ("ruleRepetition")
      = some (.num (.fin 3)) := by
  refine ⟨?_, by decide, by decide⟩
  intro v
  by_cases h1 : v = "true"
  · simp [coerceValue, coerceValueSpec, firstRule, h1]
  · by_cases h2 : v = ""
    · simp [coerceValue, coerceValueSpec, firstRule, h1, h2]
    · by_cases h3 : v = "false"
      · simp [coerceValue, coerceValueSpec, firstRule, h1, h2, h3]
      · cases hn : jsToNumber v with
        | none => simp [coerceValue, coerceValueSpec, firstRule, h1, h2, h3, hn]
        | some n => simp [coerceValue, coerceValueSpec, firstRule, h1, h2, h3, hn]

/- ### Claim C3 -/

/-- C3: the plugin resolver tries exactly the four candidate locations in
order — project-root local path (with optional `.js`), project-root
`node_modules`, working-directory `node_modules`, then the bare identifier —
and short-circuits on the first existing match, so a local path always wins
over an installed package of the same identifier. -/
theorem findPlugin_search_order :
    ∀ (fsEx : String → Bool) (root cwd pathlike : String),
      findPlugin fsEx root cwd pathlike = findPluginSpec fsEx root cwd pathlike := by
  intro fsEx root cwd p
  cases h1 : fsEx (resolveFrom cwd root p) || fsEx (resolveFrom cwd root p ++ ".js") <;>
    cases h2 : fsEx (resolveFrom cwd (resolveFrom cwd root ("node_modules")) p) <;>
      cases h3 : fsEx (resolveFrom cwd (resolveFrom cwd cwd ("node_modules")) p) <;>
        simp [findPlugin, findPluginSpec, List.find?, h1, h2, h3]

/- ### Claim C6 -/

/-- C6: the plugin identifier list is, across any sequence of `--use`
invocations, the concatenation in invocation order of the comma/semicolon
tokens of each raw string, duplicates preserved; in particular
`--use "p1" --use "p1,p2"` yields `["p1", "p1", "p2"]`. -/
theorem plugin_list_accumulation :
    (∀ (init raws : List String),
      raws.foldl (fun cache w => parsePlugin w cache) init
        = init ++ raws.flatMap (fun w => strSplitTrim splitterChar w)) ∧
    ["p1", "p1,p2"].foldl (fun cache w => parsePlugin w cache) [] = ["p1", "p1", "p2"] := by
  constructor
  · intro init raws
    induction raws generalizing init with
    | nil => simp
    | cons w rest ih =>
      rw [List.foldl_cons]
      rw [ih (parsePlugin w init)]
      simp [parsePlugin, List.append_assoc]
  · decide

/- ### Claim C2 -/

/-- C2 counterexample: with no `package.json` anywhere, `findRoot` returns
the empty string (the join of the lone first path component), not the
original start directory, because the loop stops with one component left and
the `parts.length ? location : cwd` fallback never selects `cwd`. -/
theorem findRoot_no_marker_not_startdir :
    findRoot (fun _ => false) ("/home/user/project") = "" ∧
    findRoot (fun _ => false) ("/home/user/project") ≠ "/home/user/project" := by
  decide

theorem chainGoNeNil : ∀ (rev : List String) (loc : String), rev ≠ [] → chainGo rev loc ≠ [] := by
  intro rev loc h
  cases rev with
  | nil => exact absurd rfl h
  | cons x rest => cases rest <;> simp [chainGo]

theorem findRootGoEq (fsEx : String → Bool) (cwd : String) :
    ∀ (rev : List String) (loc : String),
      findRootGo fsEx cwd rev loc =
        ((chainGo rev loc).dropLast.find? (fun l => fsEx (markerPath cwd l))).getD
          (lastOr (chainGo rev loc) cwd) := by
  intro rev
  induction rev with
  | nil => intro loc; simp [findRootGo, chainGo, lastOr]
  | cons x rest ih =>
    intro loc
    cases rest with
    | nil => simp [findRootGo, chainGo, lastOr, List.find?]
    | cons y rest2 =>
      obtain ⟨z, t, hzt⟩ :=
        List.exists_cons_of_ne_nil
          (chainGoNeNil (y :: rest2) (joinWith ("/") (y :: rest2).reverse) (by simp))
      have hrec := ih (joinWith ("/") (y :: rest2).reverse)
      rw [hzt] at hrec
      cases hm : fsEx (markerPath cwd loc) with
      | true =>
        rw [show findRootGo fsEx cwd (x :: y :: rest2) loc = loc by
              simp [findRootGo, hm]]
        rw [show chainGo (x :: y :: rest2) loc =
              loc :: chainGo (y :: rest2) (joinWith ("/") (y :: rest2).reverse) from rfl]
        rw [hzt]
        simp [List.find?, hm, lastOr, List.dropLast]
      | false =>
        rw [show findRootGo fsEx cwd (x :: y :: rest2) loc =
              findRootGo fsEx cwd (y :: rest2) (joinWith ("/") (y :: rest2).reverse) by
              simp [findRootGo, hm]]
        rw [hrec]
        rw [show chainGo (x :: y :: rest2) loc =
              loc :: chainGo (y :: rest2) (joinWith ("/") (y :: rest2).reverse) from rfl]
        rw [hzt]
        simp [List.find?, hm, lastOr, List.dropLast]

/-- C2 (amended): the project-root locator walks upward from the working
directory by dropping the last path component, checks each location of that
chain except the final single-component stage for `package.json` (so, for an
absolute path, the filesystem root itself is never checked), and returns the
first location where the marker exists; when no checked location has it, the
result is the chain's final stage — the lone first path component, which is
the empty string for an absolute working directory — and not the original
start directory. -/
theorem findRoot_characterization :
    ∀ (fsEx : String → Bool) (cwd : String),
      findRoot fsEx cwd =
        ((rootChain cwd).dropLast.find? (fun l => fsEx (markerPath cwd l))).getD
          (lastOr (rootChain cwd) cwd) := by
  intro fsEx cwd
  exact findRootGoEq fsEx cwd ((strSplitPlain '/' cwd).reverse) cwd

/- ### Claim C7 -/

/-- C7 counterexample: the entry `"a:b : c"` does not keep the value after
the first colon intact — the split on `/ *: */` eats the spaces around the
inner colon and the parts are rejoined with a bare `':'`, so the stored
string is `"b:c"`, not `"b : c"`. -/
theorem setting_colon_whitespace_collapsed :
    lookupKey (parseSetting ("a:b : c") emptyMap) ("a") = some (.str "b:c") ∧
    lookupKey (parseSetting ("a:b : c") emptyMap) ("a") ≠ some (.str "b : c") := by
  decide

/- ### Lemmas on the settings map -/

theorem lookupSetKeySelf : ∀ (m : SettingsMap) (k : String) (v : JSValue),
    lookupKey (setKey m k v) k = some v := by
  intro m k v
  induction m with
  | nil => simp [setKey, lookupKey]
  | cons p rest ih =>
    by_cases h : p.1 = k
    · simp [setKey, lookupKey, h]
    · simp [setKey, lookupKey, h, ih]

theorem lookupSetKeyOther : ∀ (m : SettingsMap) (k0 k : String) (v : JSValue),
    k0 ≠ k → lookupKey (setKey m k0 v) k = lookupKey m k := by
  intro m k0 k v hne
  induction m with
  | nil => simp [setKey, lookupKey, hne]
  | cons p rest ih =>
    by_cases h : p.1 = k0
    · simp [setKey, lookupKey, h, hne]
    · simp only [setKey, lookupKey, h, if_false]
      by_cases h2 : p.1 = k
      · simp [h2]
      · simp [h2, ih]

theorem findAppendEq : ∀ (l1 l2 : List α) (p : α → Bool),
    (l1 ++ l2).find? p =
      match l1.find? p with
      | some a => some a
      | none => l2.find? p := by
  intro l1 l2 p
  induction l1 with
  | nil => simp
  | cons a rest ih =>
    cases hp : p a <;> simp [List.find?, hp, ih]

theorem applyEntriesLookup : ∀ (es : List String) (cache : SettingsMap) (k : String),
    lookupKey (es.foldl applyEntry cache) k =
      match es.reverse.find? (fun en => entryKey en == k) with
      | some en => some (entryVal en)
      | none => lookupKey cache k := by
  intro es
  induction es with
  | nil => intro cache k; simp
  | cons e rest ih =>
    intro cache k
    rw [List.foldl_cons, ih (applyEntry cache e) k, List.reverse_cons, findAppendEq]
    cases hf : rest.reverse.find? (fun en => entryKey en == k) with
    | some en => rfl
    | none =>
      by_cases hk : entryKey e = k
      · simp only [List.find?]
        rw [show (entryKey e == k) = true by simp [hk]]
        simp only [applyEntry, hk]
        simp [lookupSetKeySelf]
      · simp only [List.find?]
        rw [show (entryKey e == k) = false by simp [hk]]
        simp [applyEntry, lookupSetKeyOther cache (entryKey e) k (entryVal e) hk]

theorem foldlParseSettingFlat : ∀ (raws : List String) (cache : SettingsMap),
    raws.foldl (fun c r => parseSetting r c) cache
      = (raws.flatMap entriesOf).foldl applyEntry cache := by
  intro raws
  induction raws with
  | nil => intro cache; rfl
  | cons w rest ih =>
    intro cache
    rw [List.foldl_cons, ih (parseSetting w cache), List.flatMap_cons, List.foldl_append]
    rfl

/- ### Claim C5 -/

/-- C5: settings accumulate across `--setting` invocations — the heap-level
parser writes through the accumulator reference and returns that same
reference — and, for every key, the looked-up value is the coercion of the
last entry assigning that key across all invocations (last-write-wins), with
keys never assigned falling through to the prior accumulator content; in
particular `--setting "a:1" --setting "a:2"` yields `a = 2`. -/
theorem setting_accumulation_last_wins :
    (∀ (s : Store SettingsMap) (flags : String) (r : ℕ),
      (parseSettingRef s flags r).1 = r) ∧
    (∀ (raws : List String) (cache : SettingsMap) (k : String),
      lookupKey (raws.foldl (fun c r => parseSetting r c) cache) k =
        match (raws.flatMap entriesOf).reverse.find? (fun en => entryKey en == k) with
        | some en => some (entryVal en)
        | none => lookupKey cache k) ∧
    lookupKey (["a:1", "a:2"].foldl (fun c r => parseSetting r c) emptyMap) ("a")
      = some (.num (.fin 2)) := by
  refine ⟨fun s flags r => rfl, ?_, by decide⟩
  intro raws cache k
  rw [foldlParseSettingFlat]
  exact applyEntriesLookup (raws.flatMap entriesOf) cache k

/- ### Claim C7 (amended) -/

/-- C7 (amended): each entry is split on every colon (with the whitespace
around each colon consumed) and the parts after the first are rejoined with
a bare `':'`; hence a value whose colons carry no adjacent whitespace — and
which contains no entry delimiter and no space — is stored exactly as
written, while whitespace around interior colons is collapsed (see the
counterexample). -/
theorem setting_colon_value_roundtrip :
    ∀ (k v : String) (cache : SettingsMap),
      k.data.all (fun c => !splitterChar c) = true →
      k.data.all (fun c => !colonChar c) = true →
      k.data.all (fun c => c != ' ') = true →
      v.data.all (fun c => !splitterChar c) = true →
      v.data.all (fun c => c != ' ') = true →
      v ≠ "" → v ≠ "true" → v ≠ "false" → jsToNumber v = none →
      lookupKey (parseSetting (k ++ ":" ++ v) cache) (camelcase k) = some (.str v) := by
  intro k v cache hks hkc hksp hvs hvsp hv1 hv2 hv3 hvn
  have hks2 : ∀ c ∈ k.data, splitterChar c = false := by
    intro c hc
    have := (List.all_eq_true.mp hks) c hc
    simpa using this
  have hkc2 : ∀ c ∈ k.data, colonChar c = false := by
    intro c hc
    have := (List.all_eq_true.mp hkc) c hc
    simpa using this
  have hksp2 : ∀ c ∈ k.data, c ≠ ' ' := by
    intro c hc
    have := (List.all_eq_true.mp hksp) c hc
    simpa using this
  have hvs2 : ∀ c ∈ v.data, splitterChar c = false := by
    intro c hc
    have := (List.all_eq_true.mp hvs) c hc
    simpa using this
  have hvsp2 : ∀ c ∈ v.data, c ≠ ' ' := by
    intro c hc
    have := (List.all_eq_true.mp hvsp) c hc
    simpa using this
  have hdata : (k ++ ":" ++ v).data = k.data ++ ':' :: v.data := by
    rw [strDataAppend, strDataAppend]
    simp [show (":" : String).data = [':'] from rfl]
  have hentries : strSplitTrim splitterChar (k ++ ":" ++ v) = [k ++ ":" ++ v] := by
    unfold strSplitTrim
    rw [hdata, splitTrimGoNoDelim splitterChar (k.data ++ ':' :: v.data) []]
    · rw [List.reverse_nil, List.nil_append, ← hdata, strMkData]
    · intro c hc
      rcases List.mem_append.mp hc with h1 | h2
      · exact hks2 c h1
      · rcases List.mem_cons.mp h2 with h3 | h4
        · rw [h3]; decide
        · exact hvs2 c h4
  have hparts : strSplitTrim colonChar (k ++ ":" ++ v)
      = k :: splitTrimGo colonChar v.data [] true := by
    unfold strSplitTrim
    rw [hdata, splitTrimGoSkip colonChar k.data (':' :: v.data) [] hkc2]
    rw [show splitTrimGo colonChar (':' :: v.data) (k.data.reverse ++ []) false
          = String.mk (((k.data.reverse ++ []).dropWhile (fun d => d = ' ')).reverse) ::
              splitTrimGo colonChar v.data [] true by
        simp [splitTrimGo, colonChar]]
    rw [List.append_nil, dropWhileNoSpace k.data.reverse
          (fun c hc => hksp2 c (List.mem_reverse.mp hc))]
    rw [List.reverse_reverse, strMkData]
  have hjoin : joinWith (":") (splitTrimGo colonChar v.data [] true) = v := by
    rw [joinSplitColon v.data [] true hvsp2 (by simp)]
    simp [strMkData]
  have hcoerce : coerceValue v = .str v := by
    simp [coerceValue, hv1, hv2, hv3, hvn]
  unfold parseSetting
  rw [hentries, List.foldl_cons, List.foldl_nil]
  unfold applyEntry entryKey entryVal
  rw [hparts]
  simp only [List.headD, List.drop]
  rw [hjoin, hcoerce]
  exact lookupSetKeySelf cache (camelcase k) (.str v)

/-- C7 amended-claim witness at `bullet : "b:c"`: the colon value survives
unchanged. -/
theorem setting_colon_value_roundtrip_witness :
    jsToNumber ("b:c") = none ∧
    lookupKey (parseSetting ("bullet" ++ ":" ++ "b:c") emptyMap) (camelcase ("bullet"))
      = some (.str "b:c") :=
  ⟨by decide,
   setting_colon_value_roundtrip ("bullet") ("b:c") emptyMap (by decide) (by decide)
     (by decide) (by decide) (by decide) (by decide) (by decide) (by decide) (by decide)⟩

/- ### Claim C10 -/

/-- C10: the plugin-list parser does not mutate its accumulator —
`cache.concat(...)` allocates a fresh array, so the returned reference is
new, the accumulator's cell is unchanged, and the fresh cell holds the
accumulator's elements followed by the split tokens. -/
theorem parsePlugin_no_mutation :
    ∀ (s : Store (List String)) (ware : String) (r : ℕ),
      r < s.objs.length →
      (parsePluginRef s ware r).1 ≠ r ∧
      (parsePluginRef s ware r).2.read r = s.read r ∧
      (parsePluginRef s ware r).2.read (parsePluginRef s ware r).1
        = some (((s.read r).getD []) ++ strSplitTrim splitterChar ware) := by
  intro s ware r hr
  refine ⟨?_, ?_, ?_⟩
  · simp only [parsePluginRef, Store.alloc]
    omega
  · simp only [parsePluginRef, Store.alloc, Store.read]
    exact List.get?_append hr
  · simp only [parsePluginRef, Store.alloc, Store.read, parsePlugin]
    exact List.get?_concat_length s.objs _

/-- C10 witness at a one-object store. -/
theorem parsePlugin_no_mutation_witness :
    (0 : ℕ) < (Store.mk [["p0"]] : Store (List String)).objs.length ∧
    ((parsePluginRef (Store.mk [["p0"]]) ("p1,p2") 0).1 ≠ 0 ∧
     (parsePluginRef (Store.mk [["p0"]]) ("p1,p2") 0).2.read 0
        = (Store.mk [["p0"]] : Store (List String)).read 0 ∧
     (parsePluginRef (Store.mk [["p0"]]) ("p1,p2") 0).2.read
        (parsePluginRef (Store.mk [["p0"]]) ("p1,p2") 0).1
        = some ((((Store.mk [["p0"]] : Store (List String)).read 0).getD []) ++
            strSplitTrim splitterChar ("p1,p2"))) :=
  ⟨by decide, parsePlugin_no_mutation (Store.mk [["p0"]]) ("p1,p2") 0 (by decide)⟩

/- ### Lemmas on plugin loading and the orchestration -/

theorem loadPluginsError :
    ∀ (Δ : Type) (e : Env Δ) (pre : List String) (p : String) (post : List String)
      (err : String),
      (∀ q ∈ pre, e.requireM (selectedPath e q) = .ok ()) →
      e.requireM (selectedPath e p) = .error err →
      loadPlugins e (pre ++ p :: post) = .error err := by
  intro Δ e pre
  induction pre with
  | nil =>
    intro p post err _ hp
    simp [loadPlugins, hp]
  | cons q pre2 ih =>
    intro p post err hpre hp
    have hq : e.requireM (selectedPath e q) = .ok () := hpre q (List.mem_cons_self q pre2)
    have hrest : ∀ x ∈ pre2, e.requireM (selectedPath e x) = .ok () :=
      fun x hx => hpre x (List.mem_cons_of_mem q hx)
    simp [loadPlugins, hq, ih p post err hrest hp]

theorem runModelReport :
    ∀ (Δ : Type) (e : Env Δ) (value : String) (filename : Option String),
      e.uncaughtCode ≠ 0 →
      ((runModel e value filename).exitCode = 0 ∧
       (runModel e value filename).stderrWrites = []) ∨
      ((runModel e value filename).exitCode ≠ 0 ∧
       (runModel e value filename).fileWrite = none ∧
       (runModel e value filename).stdoutWrites = [] ∧
       ∃ d, (runModel e value filename).stderrWrites = [d]) := by
  intro Δ e value filename h
  cases hnc : e.newConfig with
  | error ex =>
    refine Or.inr ⟨?_, ?_, ?_, ⟨ex, ?_⟩⟩ <;> simp [runModel, hnc, failOutcome]
  | ok u =>
    cases hgc : e.getConfig filename with
    | error ex =>
      refine Or.inr ⟨?_, ?_, ?_, ⟨ex, ?_⟩⟩ <;>
        simp [runModel, hnc, hgc, uncaughtOutcome, h]
    | ok options =>
      cases hlp : loadPlugins e options.plugins with
      | error ex =>
        refine Or.inr ⟨?_, ?_, ?_, ⟨ex, ?_⟩⟩ <;>
          simp [runModel, hnc, hgc, hlp, failOutcome]
      | ok us =>
        cases hpd : e.parseDoc value options.settings with
        | error ex =>
          refine Or.inr ⟨?_, ?_, ?_, ⟨ex, ?_⟩⟩ <;>
            simp [runModel, hnc, hgc, hlp, hpd, failOutcome]
        | ok doc =>
          cases hsd : (if e.astFlag then Except.ok (e.jsonStringify doc)
              else e.stringifyDoc doc options.settings) with
          | error ex =>
            refine Or.inr ⟨?_, ?_, ?_, ⟨ex, ?_⟩⟩ <;>
              simp [runModel, hnc, hgc, hlp, hpd, hsd, uncaughtOutcome, h]
          | ok out =>
            cases ho : e.output with
            | some path =>
              cases hw : e.writeF path out with
              | some ex =>
                refine Or.inr ⟨?_, ?_, ?_, ⟨ex, ?_⟩⟩ <;>
                  simp [runModel, hnc, hgc, hlp, hpd, hsd, ho, hw, failOutcome]
              | none =>
                refine Or.inl ⟨?_, ?_⟩ <;> simp [runModel, hnc, hgc, hlp, hpd, hsd, ho, hw]
            | none =>
              refine Or.inl ⟨?_, ?_⟩ <;> simp [runModel, hnc, hgc, hlp, hpd, hsd, ho]

/- ### Claim C4 -/

/-- C4: a load failure of the selected candidate — including a bare
identifier `require` cannot resolve — makes the whole run end through `fail`
with exit code `1`, nothing on standard out and no file written; and the
loader consults `require` only at each identifier's selected candidate, so a
failed load is never retried against a later candidate in the search
order. -/
theorem plugin_load_failure_fatal :
    (∀ (Δ : Type) (e : Env Δ) (value : String) (filename : Option String)
       (options : EffectiveConfig) (err p : String) (pre post : List String),
       e.newConfig = .ok () →
       e.getConfig filename = .ok options →
       options.plugins = pre ++ p :: post →
       (∀ q ∈ pre, e.requireM (selectedPath e q) = .ok ()) →
       e.requireM (selectedPath e p) = .error err →
       runModel e value filename = failOutcome err) ∧
    (∀ (Δ1 Δ2 : Type) (e1 : Env Δ1) (e2 : Env Δ2) (ids : List String),
       e1.fsEx = e2.fsEx → e1.cwd = e2.cwd →
       (∀ q ∈ ids, e1.requireM (selectedPath e1 q) = e2.requireM (selectedPath e2 q)) →
       loadPlugins e1 ids = loadPlugins e2 ids) := by
  constructor
  · intro Δ e value filename options err p pre post hnc hgc hplug hpre hp
    have hload : loadPlugins e options.plugins = .error err := by
      rw [hplug]
      exact loadPluginsError Δ e pre p post err hpre hp
    simp [runModel, hnc, hgc, hload]
  · intro Δ1 Δ2 e1 e2 ids hfs hcwd
    have hsel : ∀ q, selectedPath e1 q = selectedPath e2 q := by
      intro q
      simp [selectedPath, hfs, hcwd]
    induction ids with
    | nil => intro _; rfl
    | cons p rest ih =>
      intro hagree
      have hp := hagree p (List.mem_cons_self p rest)
      have hrest := ih (fun q hq => hagree q (List.mem_cons_of_mem p hq))
      simp only [loadPlugins]
      rw [hp, hrest]

/-- C4 witness: one unresolvable plugin identifier aborts the run with exit
code `1`, the diagnostic on standard error, and no output. -/
theorem plugin_load_failure_fatal_witness :
    envMissingPlugin.requireM (selectedPath envMissingPlugin ("missing-plugin"))
      = .error "Cannot find module: missing-plugin" ∧
    runModel envMissingPlugin "" none
      = failOutcome ("Cannot find module: missing-plugin") :=
  ⟨rfl,
   plugin_load_failure_fatal.1 Unit envMissingPlugin "" none
     (EffectiveConfig.mk emptyMap ["missing-plugin"])
     ("Cannot find module: missing-plugin") ("missing-plugin") [] []
     rfl rfl rfl (by simp) rfl⟩

/- ### Claim C8 -/

/-- C8 counterexample: piped input together with a positional file argument
does not always end with exit code `1` — when the `--settings` listing is
requested, that branch wins and the process prints the listing and exits
with code `0`. -/
theorem piped_file_settings_mode_exits_zero :
    topModel envPipedFileSettings = Outcome.mk 0 [settingsHelp] none [] ∧
    (topModel envPipedFileSettings).exitCode ≠ 1 := by
  refine ⟨rfl, by decide⟩

/-- C8 (amended): in transform mode (the `--settings` listing not
requested), an invocation with piped standard input and a positional file
argument ends through `fail` with exit code `1` and the one-file diagnostic,
whatever every collaborator would do — so before any configuration
resolution, plugin loading, or transform is attempted. -/
theorem piped_with_file_fails :
    ∀ (Δ : Type) (e : Env Δ),
      e.settingsFlag = false → e.pipedIn = true → e.args ≠ [] →
      topModel e = failOutcome oneFileMessage := by
  intro Δ e hs hp ha
  obtain ⟨a, t, hat⟩ := List.exists_cons_of_ne_nil ha
  simp [topModel, hs, hp, hat]

/-- C8 amended-claim witness. -/
theorem piped_with_file_fails_witness :
    envPipedFile.settingsFlag = false ∧ envPipedFile.pipedIn = true ∧
    envPipedFile.args ≠ [] ∧ topModel envPipedFile = failOutcome oneFileMessage :=
  ⟨rfl, rfl, by decide, piped_with_file_fails Unit envPipedFile rfl rfl (by decide)⟩

/- ### Claim C9 -/

/-- C9 counterexample: the no-input invalid invocation (TTY standard input,
no positional argument, no output option) exits with code `1` but writes its
message — the usage text — to standard out and nothing at all to standard
error, contradicting the claim that every fatal failure reports its
diagnostic on standard error only. -/
theorem missing_input_help_to_stdout :
    topModel envNoInput = Outcome.mk 1 ["Usage: mdast [options] file"] none [] ∧
    (topModel envNoInput).stderrWrites = [] ∧
    (topModel envNoInput).stdoutWrites ≠ [] ∧
    (topModel envNoInput).exitCode = 1 := by
  refine ⟨rfl, rfl, by decide, rfl⟩

theorem runChunksReport :
    ∀ (Δ : Type) (e : Env Δ), e.uncaughtCode ≠ 0 → ∀ (chunks : List String),
      ((runChunks e chunks).exitCode = 0 ∧ (runChunks e chunks).stderrWrites = []) ∨
      ((runChunks e chunks).exitCode ≠ 0 ∧
       ∃ d, (runChunks e chunks).stderrWrites = [d]) := by
  intro Δ e h chunks
  induction chunks with
  | nil => exact Or.inl ⟨rfl, rfl⟩
  | cons c rest ih =>
    rcases runModelReport Δ e c none h with ⟨h1, h2⟩ | ⟨h1, h2, h3, d, h4⟩
    · rcases ih with ⟨g1, g2⟩ | ⟨g1, g2⟩
      · refine Or.inl ⟨?_, ?_⟩
        · simp [runChunks, h1, g1]
        · simp [runChunks, h1, h2, g2]
      · refine Or.inr ⟨?_, ?_⟩
        · simp only [runChunks, h1, if_pos]
          exact g1
        · obtain ⟨d, hd⟩ := g2
          exact ⟨d, by simp [runChunks, h1, h2, hd]⟩
    · refine Or.inr ⟨?_, ⟨d, ?_⟩⟩
      · simp [runChunks, h1]
      · simp [runChunks, h1, h4]

/-- C9 (amended): with a non-zero host code for uncaught exceptions, every
run either exits with code `0`, or exits non-zero having written exactly one
diagnostic to standard error — except the no-input invalid invocation (TTY
input, no positional argument, no output option), which prints the usage
text on standard out, nothing on standard error, and exits `1`.  With a TTY
(file) input source a fatal failure additionally writes nothing to standard
out and no output file; with piped input `run` executes once per stdin
chunk, so — as the second conjunct exhibits on a two-chunk input whose
second chunk fails to parse — a `fail`-routed exit `1` can follow transform
output of earlier chunks already written to standard out. -/
theorem fatal_failure_reporting :
    (∀ (Δ : Type) (e : Env Δ), e.uncaughtCode ≠ 0 →
      (topModel e).exitCode = 0 ∨
      ((topModel e).exitCode ≠ 0 ∧
       (((topModel e).stdoutWrites = [e.helpText] ∧ (topModel e).stderrWrites = [] ∧
         (topModel e).exitCode = 1 ∧ e.pipedIn = false ∧ e.args = [] ∧
         e.output = none) ∨
        ((∃ d, (topModel e).stderrWrites = [d]) ∧
         (e.pipedIn = false →
           (topModel e).stdoutWrites = [] ∧ (topModel e).fileWrite = none))))) ∧
    ((topModel envChunked).exitCode = 1 ∧
     (topModel envChunked).stdoutWrites = ["OUT"] ∧
     (topModel envChunked).stderrWrites = ["Parse error"]) := by
  constructor
  · intro Δ e h
    cases hsf : e.settingsFlag with
    | true =>
      left
      simp [topModel, hsf]
    | false =>
      cases hpi : e.pipedIn with
      | false =>
        cases hargs : e.args with
        | nil =>
          cases ho : e.output with
          | some o =>
            have htop : topModel e =
                (match e.readF (resolveFrom e.cwd e.cwd o) with
                 | .error ex => failOutcome ex
                 | .ok value => runModel e value (some (resolveFrom e.cwd e.cwd o))) := by
              simp [topModel, hsf, hpi, hargs, ho]
            cases hr : e.readF (resolveFrom e.cwd e.cwd o) with
            | error ex =>
              rw [htop]
              simp only [hr]
              exact Or.inr ⟨one_ne_zero,
                Or.inr ⟨⟨ex, rfl⟩, fun _ => ⟨rfl, rfl⟩⟩⟩
            | ok value =>
              rw [htop]
              simp only [hr]
              rcases runModelReport Δ e value (some (resolveFrom e.cwd e.cwd o)) h with
                ⟨h0, _⟩ | ⟨h1, h2, h3, h4⟩
              · left; exact h0
              · right; exact ⟨h1, Or.inr ⟨h4, fun _ => ⟨h3, h2⟩⟩⟩
          | none =>
            have htop : topModel e = Outcome.mk 1 [e.helpText] none [] := by
              simp [topModel, hsf, hpi, hargs, ho]
            rw [htop]
            exact Or.inr ⟨one_ne_zero, Or.inl ⟨rfl, rfl, rfl, rfl, rfl, rfl⟩⟩
        | cons a t =>
          cases t with
          | nil =>
            have htop : topModel e =
                (match e.readF (resolveFrom e.cwd e.cwd a) with
                 | .error ex => failOutcome ex
                 | .ok value => runModel e value (some (resolveFrom e.cwd e.cwd a))) := by
              simp [topModel, hsf, hpi, hargs]
            cases hr : e.readF (resolveFrom e.cwd e.cwd a) with
            | error ex =>
              rw [htop]
              simp only [hr]
              exact Or.inr ⟨one_ne_zero,
                Or.inr ⟨⟨ex, rfl⟩, fun _ => ⟨rfl, rfl⟩⟩⟩
            | ok value =>
              rw [htop]
              simp only [hr]
              rcases runModelReport Δ e value (some (resolveFrom e.cwd e.cwd a)) h with
                ⟨h0, _⟩ | ⟨h1, h2, h3, h4⟩
              · left; exact h0
              · right; exact ⟨h1, Or.inr ⟨h4, fun _ => ⟨h3, h2⟩⟩⟩
          | cons b t2 =>
            have htop : topModel e = failOutcome oneFileMessage := by
              simp [topModel, hsf, hpi, hargs]
            rw [htop]
            exact Or.inr ⟨one_ne_zero,
              Or.inr ⟨⟨oneFileMessage, rfl⟩, fun _ => ⟨rfl, rfl⟩⟩⟩
      | true =>
        cases hargs : e.args with
        | nil =>
          have htop : topModel e = runChunks e e.stdinChunks := by
            simp [topModel, hsf, hpi, hargs]
          rw [htop]
          rcases runChunksReport Δ e h e.stdinChunks with ⟨g1, _⟩ | ⟨g1, g2⟩
          · left; exact g1
          · right; exact ⟨g1, Or.inr ⟨g2, fun hf => Bool.noConfusion hf⟩⟩
        | cons a t =>
          have htop : topModel e = failOutcome oneFileMessage := by
            simp [topModel, hsf, hpi, hargs]
          rw [htop]
          exact Or.inr ⟨one_ne_zero,
            Or.inr ⟨⟨oneFileMessage, rfl⟩, fun hf => Bool.noConfusion hf⟩⟩
  · exact ⟨by decide, by decide, by decide⟩

/-- C9 amended-claim witness at a throwing `Configuration` constructor on a
piped one-chunk input. -/
theorem fatal_failure_reporting_witness :
    envConfigError.uncaughtCode ≠ 0 ∧
    ((topModel envConfigError).exitCode = 0 ∨
     ((topModel envConfigError).exitCode ≠ 0 ∧
      (((topModel envConfigError).stdoutWrites = [envConfigError.helpText] ∧
        (topModel envConfigError).stderrWrites = [] ∧
        (topModel envConfigError).exitCode = 1 ∧ envConfigError.pipedIn = false ∧
        envConfigError.args = [] ∧ envConfigError.output = none) ∨
       ((∃ d, (topModel envConfigError).stderrWrites = [d]) ∧
        (envConfigError.pipedIn = false →
          (topModel envConfigError).stdoutWrites = [] ∧
          (topModel envConfigError).fileWrite = none))))) :=
  ⟨by decide, fatal_failure_reporting.1 Unit envConfigError (by decide)⟩
